import Mathlib

/-!
Verification of the agent-canvas interaction and layout model of the
`cube-ai-assign4` repository.

The definitions below are a shallow embedding of the TypeScript source in
`src/offline-ai-frontend/src/components/ManualAgentCanvas.tsx` and
`src/offline-ai-frontend/src/components/AgentVisualization.tsx`.
JavaScript numbers are modelled as rationals (`ℚ`); millisecond epoch
timestamps obtained via `new Date(ts).getTime()` are modelled as `ℤ`;
fallible operations return `Option`/pairs with a success flag.
-/

namespace Cube

/-- The four sides of a box on which connection handles sit
(`type BoxSide = 'left' | 'right' | 'top' | 'bottom'`). -/
inductive BoxSide where
  | left
  | right
  | top
  | bottom
deriving DecidableEq, Repr

/-- The string the TypeScript side value denotes at runtime, as used in
string concatenation (connection ids). -/
def BoxSide.str : BoxSide → String
  | .left => "left"
  | .right => "right"
  | .top => "top"
  | .bottom => "bottom"

/-- Source `interface ManualAgentBox`.  `agentType` is a string union in TS and is
erased at runtime, so it is modelled as a plain `String`; `model?` is an
optional field. -/
structure ManualAgentBox where
  id : String
  x : ℚ
  y : ℚ
  width : ℚ
  height : ℚ
  agentType : String
  role : String
  roleDescription : String
  model : Option String
deriving DecidableEq, Repr

/-- Source `interface ManualAgentConnection`. -/
structure ManualAgentConnection where
  id : String
  fromId : String
  fromSide : BoxSide
  toId : String
  toSide : BoxSide
deriving DecidableEq, Repr

/-- Source `interface AgentMessage` (ManualAgentCanvas).  `timestamp` is stored as a
string in TS and always consumed through `new Date(...).getTime()`; the model
carries that millisecond value directly. -/
structure AgentMessage where
  id : String
  agentId : String
  agentType : String
  agentName : String
  content : String
  timestamp : ℤ
  fromAgent : String
  toAgent : String
deriving DecidableEq, Repr

/-! ## Geometry utilities -/

/-- Source `const handleOffsets = { left: {x:0,y:0.5}, right: {x:1,y:0.5},
top: {x:0.5,y:0}, bottom: {x:0.5,y:1} }` — first component is `x`,
second is `y`. -/
def handleOffsets : BoxSide → ℚ × ℚ
  | .left => (0, 1/2)
  | .right => (1, 1/2)
  | .top => (1/2, 0)
  | .bottom => (1/2, 1)

/-- Anchor x-coordinate of a handle, as computed inline at every use site:
`box.x + box.width * handleOffsets[side].x` (renderConnections,
renderHandles, handleHandleMouseDown). -/
def anchorX (b : ManualAgentBox) (s : BoxSide) : ℚ :=
  b.x + b.width * (handleOffsets s).1

/-- Anchor y-coordinate of a handle:
`box.y + box.height * handleOffsets[side].y`. -/
def anchorY (b : ManualAgentBox) (s : BoxSide) : ℚ :=
  b.y + b.height * (handleOffsets s).2

/-- A point lies on the boundary of the axis-aligned rectangle of box `b`:
it is inside the closed rectangle and on one of the four edges. -/
def OnBoundary (b : ManualAgentBox) (px py : ℚ) : Prop :=
  (b.x ≤ px ∧ px ≤ b.x + b.width) ∧
  (b.y ≤ py ∧ py ≤ b.y + b.height) ∧
  (px = b.x ∨ px = b.x + b.width ∨ py = b.y ∨ py = b.y + b.height)

instance (b : ManualAgentBox) (px py : ℚ) : Decidable (OnBoundary b px py) :=
  inferInstanceAs (Decidable ((b.x ≤ px ∧ px ≤ b.x + b.width) ∧
    (b.y ≤ py ∧ py ≤ b.y + b.height) ∧
    (px = b.x ∨ px = b.x + b.width ∨ py = b.y ∨ py = b.y + b.height)))

/-- The numeric content of an SVG cubic Bezier path string
`M x1 y1 C c1x c1y, c2x c2y, x2 y2` produced by the path helpers.  The
source interpolates exactly these eight numbers into the string, so two
calls produce the same string iff they produce the same `BezierPath`. -/
structure BezierPath where
  x1 : ℚ
  y1 : ℚ
  c1x : ℚ
  c1y : ℚ
  c2x : ℚ
  c2y : ℚ
  x2 : ℚ
  y2 : ℚ
deriving DecidableEq, Repr

/-- Source `getSmartBezierPath` (ManualAgentCanvas.tsx): direction-aware cubic
Bezier between two points.  If `|dx| > |dy|` the control points are shifted
horizontally by `dx * 0.5`, otherwise vertically by `dy * 0.5`. -/
def getSmartBezierPath (x1 y1 x2 y2 : ℚ) : BezierPath :=
  let dx := x2 - x1
  let dy := y2 - y1
  let absDx := |dx|
  let absDy := |dy|
  if absDx > absDy then
    { x1 := x1, y1 := y1
      c1x := x1 + dx * (1/2), c1y := y1
      c2x := x2 - dx * (1/2), c2y := y2
      x2 := x2, y2 := y2 }
  else
    { x1 := x1, y1 := y1
      c1x := x1, c1y := y1 + dy * (1/2)
      c2x := x2, c2y := y2 - dy * (1/2)
      x2 := x2, y2 := y2 }

/-- Source `getCurvedPath` (AgentVisualization.tsx): `isVertical = |dy| > |dx|`;
vertical connections curve by offsetting the control points along y,
horizontal ones along x. -/
def getCurvedPath (sx sy ex ey : ℚ) : BezierPath :=
  let dx := ex - sx
  let dy := ey - sy
  if |dy| > |dx| then
    { x1 := sx, y1 := sy
      c1x := sx, c1y := sy + dy * (1/2)
      c2x := ex, c2y := ey - dy * (1/2)
      x2 := ex, y2 := ey }
  else
    { x1 := sx, y1 := sy
      c1x := sx + dx * (1/2), c1y := sy
      c2x := ex - dx * (1/2), c2y := ey
      x2 := ex, y2 := ey }

/-! ## Box/Connection model operations -/

/-- In-progress connection drag (`connectDrag` state):
`{ fromId, fromSide, mouse: {x, y} }`. -/
structure ConnectDrag where
  fromId : String
  fromSide : BoxSide
  mouseX : ℚ
  mouseY : ℚ
deriving DecidableEq, Repr

/-- Handle currently hovered during a connection drag (`dragOverHandle`
state): `{ boxId, side }`. -/
structure DragOverHandle where
  boxId : String
  side : BoxSide
deriving DecidableEq, Repr

/-- The default box record appended by `handleCreateBox`
(`DEFAULT_BOX = { width: 300, height: 100 }`, position (50,50), type
`'coordinator'`, empty role fields).  The generated id
`Date.now().toString() + Math.random().toString(36).slice(2)` is a
parameter of the model. -/
def defaultNewBox (newId : String) : ManualAgentBox :=
  { id := newId, x := 50, y := 50, width := 300, height := 100
    agentType := "coordinator", role := "", roleDescription := "", model := none }

/-- Source `handleCreateBox`: `setBoxes(prev => [...prev, { ... }])`. -/
def handleCreateBox (boxes : List ManualAgentBox) (newId : String) :
    List ManualAgentBox :=
  boxes ++ [defaultNewBox newId]

/-- Deleting a box (trash button in `renderBoxes`, and the
`Delete`/`Backspace` branch of `handleKeyDown`): removes the box and, in
the same operation, every connection whose `fromId` or `toId` is the
deleted id:
`setBoxes(prev => prev.filter(b => b.id !== id))` and
`setConnections(prev => prev.filter(c => c.fromId !== id && c.toId !== id))`. -/
def deleteBoxOp (boxes : List ManualAgentBox)
    (conns : List ManualAgentConnection) (id : String) :
    List ManualAgentBox × List ManualAgentConnection :=
  (boxes.filter (fun b => decide (b.id ≠ id)),
   conns.filter (fun c => decide (c.fromId ≠ id ∧ c.toId ≠ id)))

/-- The connection id string built at commit time:
`connectDrag.fromId + '-' + dragOverHandle.boxId + '-' +
connectDrag.fromSide + '-' + dragOverHandle.side`. -/
def connId (fromId toId : String) (fromSide toSide : BoxSide) : String :=
  fromId ++ "-" ++ toId ++ "-" ++ fromSide.str ++ "-" ++ toSide.str

/-- The connection record appended by `handleCanvasMouseUp`. -/
def mkCommittedConn (fromId : String) (fromSide : BoxSide)
    (toId : String) (toSide : BoxSide) : ManualAgentConnection :=
  { id := connId fromId toId fromSide toSide
    fromId := fromId, fromSide := fromSide, toId := toId, toSide := toSide }

/-- The connection-commit branch of `handleCanvasMouseUp`: with an active
`connectDrag`, a new edge is appended iff the mouse is over a handle
(`dragOverHandle` non-null) of a box other than the drag source
(`dragOverHandle.boxId !== connectDrag.fromId`); otherwise the connection
list is left unchanged.  The box list is not consulted. -/
def commitConnection (cd : ConnectDrag) (doh : Option DragOverHandle)
    (conns : List ManualAgentConnection) : List ManualAgentConnection :=
  match doh with
  | none => conns
  | some h =>
    if h.boxId ≠ cd.fromId then
      conns ++ [mkCommittedConn cd.fromId cd.fromSide h.boxId h.side]
    else conns

/-- Deleting a connection by id (popup Delete button in
`renderPopupForConnection`, and the `Delete`/`Backspace` branch of
`handleKeyDown`): `setConnections(prev => prev.filter(c => c.id !== id))`. -/
def deleteConnectionById (id : String) (conns : List ManualAgentConnection) :
    List ManualAgentConnection :=
  conns.filter (fun c => decide (c.id ≠ id))

/-- The resize branch of `handleCanvasMouseMove`: the box being resized gets
`width = Math.max(120, resizeBox.width + dx)` and
`height = Math.max(60, resizeBox.height + dy)` where
`dx = e.clientX - resizeStart.x`, `dy = e.clientY - resizeStart.y`. -/
def resizeStep (boxes : List ManualAgentBox) (resizeId : String)
    (resizeStartX resizeStartY resizeBoxW resizeBoxH clientX clientY : ℚ) :
    List ManualAgentBox :=
  let dx := clientX - resizeStartX
  let dy := clientY - resizeStartY
  boxes.map (fun box =>
    if box.id = resizeId then
      { box with width := max 120 (resizeBoxW + dx)
                 height := max 60 (resizeBoxH + dy) }
    else box)

/-- The drag branch of `handleCanvasMouseMove`: the dragged box moves to
`(e.clientX - offset.x, e.clientY - offset.y)`. -/
def dragStep (boxes : List ManualAgentBox) (dragId : String)
    (offsetX offsetY clientX clientY : ℚ) : List ManualAgentBox :=
  boxes.map (fun box =>
    if box.id = dragId then
      { box with x := clientX - offsetX, y := clientY - offsetY }
    else box)

/-! ## Message grouping (AgentVisualization.tsx) -/

/-- Source `interface AIBlock` (AgentVisualization.tsx).  `type` is a string union
erased at runtime; `timestamp` is consumed through
`new Date(...).getTime()` and modelled as the millisecond value. -/
structure AIBlock where
  type : String
  content : String
  timestamp : ℤ
  id : String
  name : String
  iteration : ℤ
deriving DecidableEq, Repr

/-- The loop of `groupMessagesByConversation`: `prev` is `messages[i-1]`,
`rest` the remaining messages, `currentGroup` and `groups` the two
accumulators.  A message within 5000 ms of its predecessor joins the
current group, otherwise the current group is pushed and a new one starts.
After the loop the current group is pushed if non-empty. -/
def groupGo (prev : AIBlock) (rest : List AIBlock)
    (currentGroup : List AIBlock) (groups : List (List AIBlock)) :
    List (List AIBlock) :=
  match rest with
  | [] => if currentGroup.isEmpty then groups else groups ++ [currentGroup]
  | c :: rest =>
    if c.timestamp - prev.timestamp ≤ 5000 then
      groupGo c rest (currentGroup ++ [c]) groups
    else
      groupGo c rest [c] (groups ++ [currentGroup])

/-- Source `groupMessagesByConversation(messages)`: empty input yields no groups;
otherwise the loop starts with `currentGroup = [messages[0]]`. -/
def groupMessagesByConversation (messages : List AIBlock) :
    List (List AIBlock) :=
  match messages with
  | [] => []
  | m :: ms => groupGo m ms [m] []

/-- Two consecutive messages within one group: gap at most 5000 ms. -/
def GapLE (a b : AIBlock) : Prop := b.timestamp - a.timestamp ≤ 5000

/-- Two consecutive groups: the gap from the last message of the first to
the first message of the second exceeds 5000 ms. -/
def BoundaryGT (g h : List AIBlock) : Prop :=
  ∀ a b, g.getLast? = some a → h.head? = some b →
    5000 < b.timestamp - a.timestamp

/-- Referential consistency: every connection's endpoints name ids of boxes
present in the box list. -/
def ConnConsistent (boxes : List ManualAgentBox)
    (conns : List ManualAgentConnection) : Prop :=
  ∀ c ∈ conns, (∃ b ∈ boxes, b.id = c.fromId) ∧ (∃ b ∈ boxes, b.id = c.toId)

instance (boxes : List ManualAgentBox) (conns : List ManualAgentConnection) :
    Decidable (ConnConsistent boxes conns) :=
  inferInstanceAs (Decidable (∀ c ∈ conns,
    (∃ b ∈ boxes, b.id = c.fromId) ∧ (∃ b ∈ boxes, b.id = c.toId)))

/-- The minimum usable box size: width at least 120 and height at least 60. -/
def MinSized (b : ManualAgentBox) : Prop := 120 ≤ b.width ∧ 60 ≤ b.height

instance (b : ManualAgentBox) : Decidable (MinSized b) :=
  inferInstanceAs (Decidable (120 ≤ b.width ∧ 60 ≤ b.height))

/-! ## JSON model for export/import

`handleExport` serialises the canvas with `JSON.stringify`;
`handleImportChange` runs `JSON.parse` on the chosen file and validates the
result.  The model works at the level of the parsed JSON value: a
`JSON.parse` failure on invalid text is `none`, valid JSON text parses to a
`Json` value.  Assigning a parsed value into the typed state is modelled by
decoders; on data produced by the exporter the decoders are total. -/

/-- A JSON value, as produced by `JSON.parse` on valid JSON text. -/
inductive Json where
  | null
  | bool (b : Bool)
  | num (q : ℚ)
  | str (s : String)
  | arr (elems : List Json)
  | obj (fields : List (String × Json))
deriving Repr

/-- JS member access `data.k`: a field of an object, `undefined`
(modelled `none`) otherwise. -/
def Json.getField : Json → String → Option Json
  | .obj fields, k => fields.lookup k
  | _, _ => none

/-- JS truthiness of a parsed JSON value (`!data`, `data.canvasOffset &&`,
`data.pinnedBoxes ||`): `null`, `false`, `0` and `""` are falsy. -/
def Json.falsy : Json → Bool
  | .null => true
  | .bool b => !b
  | .num q => q == 0
  | .str s => s == ""
  | .arr _ => false
  | .obj _ => false

def Json.asStr : Json → Option String
  | .str s => some s
  | _ => none

def Json.asNum : Json → Option ℚ
  | .num q => some q
  | _ => none

/-- JS `Array.isArray`: the element list of an array value, `none` otherwise. -/
def Json.asArr : Json → Option (List Json)
  | .arr elems => some elems
  | _ => none

/-- Mapping a decoder over a list, failing if any element fails.  Models
the typed reading of a parsed JSON array into the state. -/
def optionMapList (g : β → Option α) : List β → Option (List α)
  | [] => some []
  | x :: xs => do
    let y ← g x
    let ys ← optionMapList g xs
    pure (y :: ys)

/-- A box as serialised by `JSON.stringify` inside the export document;
`JSON.stringify` omits the optional `model` field when it is absent. -/
def encodeBox (b : ManualAgentBox) : Json :=
  .obj ([("id", .str b.id), ("x", .num b.x), ("y", .num b.y),
    ("width", .num b.width), ("height", .num b.height),
    ("agentType", .str b.agentType), ("role", .str b.role),
    ("roleDescription", .str b.roleDescription)] ++
    (match b.model with
     | some m => [("model", .str m)]
     | none => []))

/-- Reading a parsed JSON value back as a `ManualAgentBox` (the typed view
of `setBoxes(data.boxes)`). -/
def decodeBox (j : Json) : Option ManualAgentBox := do
  let id ← (j.getField "id").bind Json.asStr
  let x ← (j.getField "x").bind Json.asNum
  let y ← (j.getField "y").bind Json.asNum
  let width ← (j.getField "width").bind Json.asNum
  let height ← (j.getField "height").bind Json.asNum
  let agentType ← (j.getField "agentType").bind Json.asStr
  let role ← (j.getField "role").bind Json.asStr
  let roleDescription ← (j.getField "roleDescription").bind Json.asStr
  pure { id := id, x := x, y := y, width := width, height := height
         agentType := agentType, role := role
         roleDescription := roleDescription
         model := (j.getField "model").bind Json.asStr }

/-- The runtime string of a side value, read back. -/
def decodeSide : Json → Option BoxSide
  | .str "left" => some BoxSide.left
  | .str "right" => some BoxSide.right
  | .str "top" => some BoxSide.top
  | .str "bottom" => some BoxSide.bottom
  | _ => none

/-- A connection as serialised inside the export document. -/
def encodeConn (c : ManualAgentConnection) : Json :=
  .obj [("id", .str c.id), ("fromId", .str c.fromId),
    ("fromSide", .str c.fromSide.str), ("toId", .str c.toId),
    ("toSide", .str c.toSide.str)]

/-- Reading a parsed JSON value back as a `ManualAgentConnection`. -/
def decodeConn (j : Json) : Option ManualAgentConnection := do
  let id ← (j.getField "id").bind Json.asStr
  let fromId ← (j.getField "fromId").bind Json.asStr
  let fromSide ← (j.getField "fromSide").bind decodeSide
  let toId ← (j.getField "toId").bind Json.asStr
  let toSide ← (j.getField "toSide").bind decodeSide
  pure { id := id, fromId := fromId, fromSide := fromSide
         toId := toId, toSide := toSide }

/-- The `pinnedBoxes` record (`Record<string, boolean>`) as serialised. -/
def encodePinned (p : List (String × Bool)) : Json :=
  .obj (p.map (fun kv => (kv.1, .bool kv.2)))

/-- Reading a parsed JSON value back as a pinned-boxes record. -/
def decodePinned (j : Json) : Option (List (String × Bool)) :=
  match j with
  | .obj fields =>
    optionMapList (fun kv =>
      match kv.2 with
      | .bool b => some (kv.1, b)
      | _ => none) fields
  | _ => none

/-- Per-connection popup override (`popupStates` entry):
`{ x?, y?, width?, height? }`. -/
structure PopupState where
  x : Option ℚ
  y : Option ℚ
  width : Option ℚ
  height : Option ℚ
deriving DecidableEq, Repr

/-- The in-memory canvas state touched by export/import/clear: the
`useState` pieces of `ManualAgentCanvas` that those handlers read or
write. -/
structure CanvasState where
  boxes : List ManualAgentBox
  connections : List ManualAgentConnection
  pinnedBoxes : List (String × Bool)
  prompt : String
  canvasScale : ℚ
  canvasOffsetX : ℚ
  canvasOffsetY : ℚ
  agentMessages : List AgentMessage
  selectedBoxId : Option String
  selectedConnectionId : Option String
  connectDrag : Option ConnectDrag
  dragOverHandle : Option DragOverHandle
  connectMode : Bool
  popupStates : List (String × PopupState)
deriving DecidableEq, Repr

/-- The initial state of the component (the `useState` initial values). -/
def initialState : CanvasState :=
  { boxes := [], connections := [], pinnedBoxes := [], prompt := ""
    canvasScale := 1, canvasOffsetX := 0, canvasOffsetY := 0
    agentMessages := [], selectedBoxId := none, selectedConnectionId := none
    connectDrag := none, dragOverHandle := none, connectMode := false
    popupStates := [] }

/-- Source `handleExport`: the JSON document written to the downloaded file
(`version`, `prompt`, `boxes`, `connections`, `pinnedBoxes`,
`canvasScale`, `canvasOffset`, `timestamp`).  The
`new Date().toISOString()` timestamp is a parameter. -/
def handleExport (s : CanvasState) (timestamp : String) : Json :=
  .obj [("version", .num 1), ("prompt", .str s.prompt),
    ("boxes", .arr (s.boxes.map encodeBox)),
    ("connections", .arr (s.connections.map encodeConn)),
    ("pinnedBoxes", encodePinned s.pinnedBoxes),
    ("canvasScale", .num s.canvasScale),
    ("canvasOffset", .obj [("x", .num s.canvasOffsetX),
                           ("y", .num s.canvasOffsetY)]),
    ("timestamp", .str timestamp)]

/-- Source `setPinnedBoxes(data.pinnedBoxes || ...)`, defaulting to the
empty record: absent or falsy gives the
empty record; a decodable record is installed as is. -/
def importPinned (data : Json) : List (String × Bool) :=
  match data.getField "pinnedBoxes" with
  | some j => if j.falsy then [] else (decodePinned j).getD []
  | none => []

/-- The guarded `setCanvasOffset`: applied only when `data.canvasOffset`
is truthy and both `x` and `y` are numbers; otherwise the previous offset
is kept. -/
def importCanvasOffset (data : Json) (px py : ℚ) : ℚ × ℚ :=
  match data.getField "canvasOffset" with
  | some off =>
    if off.falsy then (px, py)
    else
      match off.getField "x", off.getField "y" with
      | some (.num ox), some (.num oy) => (ox, oy)
      | _, _ => (px, py)
  | none => (px, py)

/-- Source `handleClearCanvas` (after the user confirms): empties boxes,
connections and messages, clears selections, drags, connect mode and popup
states; prompt, pinned flags and the viewport are kept. -/
def handleClearCanvas (s : CanvasState) : CanvasState :=
  { s with
    boxes := [], connections := [], agentMessages := []
    selectedBoxId := none, selectedConnectionId := none
    connectDrag := none, dragOverHandle := none, connectMode := false
    popupStates := [] }

/-- Source `handleImportChange` on the file's text: `none` models text rejected
by `JSON.parse`.  The parsed value is validated
(`!data || !Array.isArray(data.boxes) || !Array.isArray(data.connections)`
throws) before any state is written, so a failure (result flag `false`,
surfaced as the failure alert) leaves the whole state untouched.  On
success the boxes/connections/pinned/prompt/scale/offset fields are
installed — verbatim, with no referential check and no size clamping —
messages, selections, drags, connect mode and popups are reset, and the
success alert is surfaced (flag `true`). -/
def handleImportChange (input : Option Json) (s : CanvasState) :
    CanvasState × Bool :=
  match input with
  | none => (s, false)
  | some data =>
    if data.falsy then (s, false)
    else
      match (data.getField "boxes").bind Json.asArr,
            (data.getField "connections").bind Json.asArr with
      | some boxList, some connList =>
        match optionMapList decodeBox boxList,
              optionMapList decodeConn connList with
        | some boxes, some conns =>
          ({ s with
              boxes := boxes
              connections := conns
              pinnedBoxes := importPinned data
              prompt := (match data.getField "prompt" with
                | some (.str p) => p
                | _ => s.prompt)
              canvasScale := (match data.getField "canvasScale" with
                | some (.num q) => q
                | _ => s.canvasScale)
              canvasOffsetX :=
                (importCanvasOffset data s.canvasOffsetX s.canvasOffsetY).1
              canvasOffsetY :=
                (importCanvasOffset data s.canvasOffsetX s.canvasOffsetY).2
              agentMessages := []
              selectedBoxId := none
              selectedConnectionId := none
              connectDrag := none
              dragOverHandle := none
              connectMode := false
              popupStates := [] }, true)
        | _, _ => (s, false)
      | _, _ => (s, false)

/-- The validation `handleImportChange` performs before writing any state:
the parsed value is truthy and its `boxes` and `connections` fields are
arrays. -/
def importValid (data : Json) : Bool :=
  !data.falsy && ((data.getField "boxes").bind Json.asArr).isSome &&
    ((data.getField "connections").bind Json.asArr).isSome

/-- A concrete box used to instantiate universally quantified theorems. -/
def sampleBox : ManualAgentBox :=
  { id := "b1", x := 50, y := 50, width := 300, height := 100
    agentType := "coordinator", role := "", roleDescription := "", model := none }

/-- A message carrying only a timestamp, for the concrete grouping
example. -/
def msgAt (t : ℤ) : AIBlock :=
  { type := "coordinator", content := "", timestamp := t, id := "", name := ""
    iteration := 0 }

/-- A syntactically well-formed import document whose single connection
references boxes that do not exist in its (empty) box array. -/
def danglingDoc : Json :=
  .obj [("boxes", .arr []),
    ("connections",
      .arr [encodeConn (mkCommittedConn "ghostA" BoxSide.right
        "ghostB" BoxSide.left)])]

/-- A box far below the 120×60 minimum. -/
def tinyBox : ManualAgentBox :=
  { id := "tiny", x := 0, y := 0, width := 10, height := 10
    agentType := "custom", role := "", roleDescription := "", model := none }

/-- A syntactically well-formed import document carrying `tinyBox`. -/
def tinyBoxDoc : Json :=
  .obj [("boxes", .arr [encodeBox tinyBox]), ("connections", .arr [])]

/-! ## Connection message overlay -/

/-- Ascending-timestamp comparison used by the JS sort comparator
`(a, b) => new Date(a.timestamp).getTime() - new Date(b.timestamp).getTime()`. -/
def tsLE (a b : AgentMessage) : Prop := a.timestamp ≤ b.timestamp

instance : DecidableRel tsLE :=
  fun a b => inferInstanceAs (Decidable (a.timestamp ≤ b.timestamp))

instance : IsTotal AgentMessage tsLE :=
  ⟨fun a b => le_total a.timestamp b.timestamp⟩

instance : IsTrans AgentMessage tsLE :=
  ⟨fun _ _ _ hab hbc => le_trans hab hbc⟩

/-- Source `getConnectionMessages(conn, from, to)`: filters the message log to
entries whose `agentId` equals either endpoint box's id, then sorts
ascending by timestamp (JS `Array.prototype.sort` is stable; modelled by
insertion sort).  Neither `fromAgent` nor `toAgent` is consulted, and
`conn` itself is unused by the filter. -/
def getConnectionMessages (agentMessages : List AgentMessage)
    (conn : ManualAgentConnection) (fromBox toBox : ManualAgentBox) :
    List AgentMessage :=
  List.insertionSort tsLE
    (agentMessages.filter
      (fun m => decide (m.agentId = fromBox.id ∨ m.agentId = toBox.id)))

/-- Endpoint boxes for the message-overlay example. -/
def boxA : ManualAgentBox :=
  { id := "A", x := 0, y := 0, width := 300, height := 100
    agentType := "coordinator", role := "", roleDescription := "", model := none }

def boxB : ManualAgentBox :=
  { id := "B", x := 400, y := 0, width := 300, height := 100
    agentType := "coder", role := "", roleDescription := "", model := none }

/-- A message whose recipient is endpoint `A` but whose sender (`agentId`,
`fromAgent`) is a third agent `"C"`. -/
def msgRecipientOnly : AgentMessage :=
  { id := "m1", agentId := "C", agentType := "C", agentName := "C"
    content := "hello", timestamp := 0, fromAgent := "C", toAgent := "A" }

end Cube

namespace Cube

/-! ## Theorems: geometry -/

/-- C5p: the claimed anchor formula and the boundary property. -/
theorem anchorPoint_formula_and_boundary (b : ManualAgentBox) (s : BoxSide)
    (hw : 0 ≤ b.width) (hh : 0 ≤ b.height) :
    anchorX b s = b.x + b.width * (handleOffsets s).1 ∧
    anchorY b s = b.y + b.height * (handleOffsets s).2 ∧
    OnBoundary b (anchorX b s) (anchorY b s) := by
  refine ⟨rfl, rfl, ?_⟩
  cases s with
  | left =>
    simp only [OnBoundary, anchorX, anchorY, handleOffsets]
    exact ⟨⟨by linarith, by linarith⟩, ⟨by linarith, by linarith⟩,
      Or.inl (by ring)⟩
  | right =>
    simp only [OnBoundary, anchorX, anchorY, handleOffsets]
    exact ⟨⟨by linarith, by linarith⟩, ⟨by linarith, by linarith⟩,
      Or.inr (Or.inl (by ring))⟩
  | top =>
    simp only [OnBoundary, anchorX, anchorY, handleOffsets]
    exact ⟨⟨by linarith, by linarith⟩, ⟨by linarith, by linarith⟩,
      Or.inr (Or.inr (Or.inl (by ring)))⟩
  | bottom =>
    simp only [OnBoundary, anchorX, anchorY, handleOffsets]
    exact ⟨⟨by linarith, by linarith⟩, ⟨by linarith, by linarith⟩,
      Or.inr (Or.inr (Or.inr (by ring)))⟩

/-- Witness instantiating `anchorPoint_formula_and_boundary` at a concrete
box and side. -/
theorem anchorPoint_formula_and_boundary_witness :
    anchorX sampleBox BoxSide.left
        = sampleBox.x + sampleBox.width * (handleOffsets BoxSide.left).1 ∧
    anchorY sampleBox BoxSide.left
        = sampleBox.y + sampleBox.height * (handleOffsets BoxSide.left).2 ∧
    OnBoundary sampleBox (anchorX sampleBox BoxSide.left)
      (anchorY sampleBox BoxSide.left) :=
  anchorPoint_formula_and_boundary sampleBox BoxSide.left
    (by norm_num [sampleBox]) (by norm_num [sampleBox])

/-- Unfolding of `getSmartBezierPath` in the horizontally dominated case. -/
theorem getSmartBezierPath_of_horiz (x1 y1 x2 y2 : ℚ)
    (h : |x2 - x1| > |y2 - y1|) :
    getSmartBezierPath x1 y1 x2 y2 =
      { x1 := x1, y1 := y1
        c1x := x1 + (x2 - x1) * (1/2), c1y := y1
        c2x := x2 - (x2 - x1) * (1/2), c2y := y2
        x2 := x2, y2 := y2 } := by
  simp only [getSmartBezierPath]
  rw [if_pos h]

/-- Unfolding of `getSmartBezierPath` in the non-horizontal case. -/
theorem getSmartBezierPath_of_vert (x1 y1 x2 y2 : ℚ)
    (h : ¬ |x2 - x1| > |y2 - y1|) :
    getSmartBezierPath x1 y1 x2 y2 =
      { x1 := x1, y1 := y1
        c1x := x1, c1y := y1 + (y2 - y1) * (1/2)
        c2x := x2, c2y := y2 - (y2 - y1) * (1/2)
        x2 := x2, y2 := y2 } := by
  simp only [getSmartBezierPath]
  rw [if_neg h]

/-- Unfolding of `getCurvedPath` in the vertically dominated case. -/
theorem getCurvedPath_of_vert (sx sy ex ey : ℚ)
    (h : |ey - sy| > |ex - sx|) :
    getCurvedPath sx sy ex ey =
      { x1 := sx, y1 := sy
        c1x := sx, c1y := sy + (ey - sy) * (1/2)
        c2x := ex, c2y := ey - (ey - sy) * (1/2)
        x2 := ex, y2 := ey } := by
  simp only [getCurvedPath]
  rw [if_pos h]

/-- Unfolding of `getCurvedPath` in the non-vertical case. -/
theorem getCurvedPath_of_horiz (sx sy ex ey : ℚ)
    (h : ¬ |ey - sy| > |ex - sx|) :
    getCurvedPath sx sy ex ey =
      { x1 := sx, y1 := sy
        c1x := sx + (ex - sx) * (1/2), c1y := sy
        c2x := ex - (ex - sx) * (1/2), c2y := ey
        x2 := ex, y2 := ey } := by
  simp only [getCurvedPath]
  rw [if_neg h]

/-- C6p: both curved-path helpers are pure functions (identical inputs give
identical paths), and when one displacement strictly dominates, the control
points sit at the midpoint coordinate of the dominant axis while keeping the
endpoint coordinates of the other axis. -/
theorem curvedPath_deterministic_and_midpoints (x1 y1 x2 y2 : ℚ) :
    getSmartBezierPath x1 y1 x2 y2 = getSmartBezierPath x1 y1 x2 y2 ∧
    getCurvedPath x1 y1 x2 y2 = getCurvedPath x1 y1 x2 y2 ∧
    (|x2 - x1| > |y2 - y1| →
      ∀ p ∈ [getSmartBezierPath x1 y1 x2 y2, getCurvedPath x1 y1 x2 y2],
        p.c1x = (x1 + x2) / 2 ∧ p.c1y = y1 ∧
        p.c2x = (x1 + x2) / 2 ∧ p.c2y = y2) ∧
    (|y2 - y1| > |x2 - x1| →
      ∀ p ∈ [getSmartBezierPath x1 y1 x2 y2, getCurvedPath x1 y1 x2 y2],
        p.c1y = (y1 + y2) / 2 ∧ p.c1x = x1 ∧
        p.c2y = (y1 + y2) / 2 ∧ p.c2x = x2) := by
  refine ⟨rfl, rfl, ?_, ?_⟩
  · intro h p hp
    rw [getSmartBezierPath_of_horiz x1 y1 x2 y2 h,
      getCurvedPath_of_horiz x1 y1 x2 y2 (not_lt_of_lt h)] at hp
    simp only [List.mem_cons, List.mem_singleton, List.not_mem_nil, or_false] at hp
    rcases hp with hp | hp <;> subst hp <;>
      refine ⟨by ring, rfl, by ring, rfl⟩
  · intro h p hp
    rw [getSmartBezierPath_of_vert x1 y1 x2 y2 (not_lt_of_lt h),
      getCurvedPath_of_vert x1 y1 x2 y2 h] at hp
    simp only [List.mem_cons, List.mem_singleton, List.not_mem_nil, or_false] at hp
    rcases hp with hp | hp <;> subst hp <;>
      refine ⟨by ring, rfl, by ring, rfl⟩

/-- Witness instantiating `curvedPath_deterministic_and_midpoints` at
endpoints (0,0) and (10,2), where horizontal displacement dominates. -/
theorem curvedPath_deterministic_and_midpoints_witness :
    (|(10:ℚ) - 0| > |(2:ℚ) - 0| →
      ∀ p ∈ [getSmartBezierPath 0 0 10 2, getCurvedPath 0 0 10 2],
        p.c1x = ((0:ℚ) + 10) / 2 ∧ p.c1y = 0 ∧
        p.c2x = ((0:ℚ) + 10) / 2 ∧ p.c2y = 2) ∧
    |(10:ℚ) - 0| > |(2:ℚ) - 0| :=
  ⟨(curvedPath_deterministic_and_midpoints 0 0 10 2).2.2.1, by norm_num⟩

/-! ## Theorems: connection commit and deletion -/

/-- C2a: with an active drag, the commit is a no-op exactly when no handle
is hovered or the hovered handle belongs to the drag-source box
(self-loop); otherwise a new edge is appended.  Endpoint existence in the
box list is not part of the commit condition. -/
theorem commitConnection_selfLoop_noop_else_append (cd : ConnectDrag)
    (h : DragOverHandle) (conns : List ManualAgentConnection) :
    commitConnection cd none conns = conns ∧
    (h.boxId = cd.fromId → commitConnection cd (some h) conns = conns) ∧
    (h.boxId ≠ cd.fromId →
      commitConnection cd (some h) conns
        = conns ++ [mkCommittedConn cd.fromId cd.fromSide h.boxId h.side]) := by
  refine ⟨rfl, ?_, ?_⟩
  · intro he; simp [commitConnection, he]
  · intro hne; simp [commitConnection, hne]

/-- Witness instantiating `commitConnection_selfLoop_noop_else_append` at a
concrete self-loop attempt. -/
theorem commitConnection_selfLoop_noop_else_append_witness :
    commitConnection ⟨"a", BoxSide.right, 0, 0⟩
      (some ⟨"a", BoxSide.left⟩) [] = [] :=
  (commitConnection_selfLoop_noop_else_append
    ⟨"a", BoxSide.right, 0, 0⟩ ⟨"a", BoxSide.left⟩ []).2.1 rfl

/-- C2c: counterexample to the claim that a commit fails whenever an
endpoint box does not exist.  In a state whose box list is `[sampleBox]`
(id `"b1"`), with a pending drag from id `"ghost"` (a box deleted mid-drag
via the Delete key, which does not clear `connectDrag`), the source
endpoint does not exist, yet releasing the mouse over the handle of
`"b1"` appends a new edge: the commit never consults the box list. -/
theorem commitConnection_ignores_endpoint_existence :
    (¬ ∃ b ∈ [sampleBox], b.id = "ghost") ∧
    commitConnection ⟨"ghost", BoxSide.right, 0, 0⟩
        (some ⟨"b1", BoxSide.left⟩) []
      = [{ id := "ghost-b1-right-left", fromId := "ghost"
           fromSide := BoxSide.right, toId := "b1"
           toSide := BoxSide.left }] := by
  refine ⟨by decide, ?_⟩
  rfl

/-- C10p: the id of a committed connection is a pure function of the
(fromId, fromSide, toId, toSide) 4-tuple, so two commits of the same
4-tuple (regardless of mouse coordinates) append two connections carrying
the same id; and `deleteConnectionById` removes every connection whose id
equals the given id, hence both duplicates at once. -/
theorem connId_deterministic_and_delete_removes_duplicates
    (fromId toId : String) (fs ts : BoxSide) (mx my mx' my' : ℚ)
    (conns : List ManualAgentConnection) (hne : toId ≠ fromId) :
    commitConnection ⟨fromId, fs, mx', my'⟩ (some ⟨toId, ts⟩)
        (commitConnection ⟨fromId, fs, mx, my⟩ (some ⟨toId, ts⟩) conns)
      = conns ++ [mkCommittedConn fromId fs toId ts,
                  mkCommittedConn fromId fs toId ts] ∧
    (∀ l : List ManualAgentConnection,
      ∀ c ∈ deleteConnectionById (connId fromId toId fs ts) l,
        c.id ≠ connId fromId toId fs ts) := by
  constructor
  · simp [commitConnection, hne]
  · intro l c hc
    simp only [deleteConnectionById, List.mem_filter, decide_eq_true_eq] at hc
    exact hc.2

/-- Witness instantiating
`connId_deterministic_and_delete_removes_duplicates`: committing the edge
("a", right, "b", left) twice appends two identical records, and deleting
by their shared id empties the resulting list. -/
theorem connId_deterministic_and_delete_removes_duplicates_witness :
    commitConnection ⟨"a", BoxSide.right, 1, 2⟩ (some ⟨"b", BoxSide.left⟩)
        (commitConnection ⟨"a", BoxSide.right, 3, 4⟩
          (some ⟨"b", BoxSide.left⟩) [])
      = [mkCommittedConn "a" BoxSide.right "b" BoxSide.left,
         mkCommittedConn "a" BoxSide.right "b" BoxSide.left] ∧
    deleteConnectionById (connId "a" "b" BoxSide.right BoxSide.left)
        [mkCommittedConn "a" BoxSide.right "b" BoxSide.left,
         mkCommittedConn "a" BoxSide.right "b" BoxSide.left] = [] := by
  have h := connId_deterministic_and_delete_removes_duplicates
    "a" "b" BoxSide.right BoxSide.left 3 4 1 2 [] (by decide)
  refine ⟨by simpa using h.1, by decide⟩

/-! ## Theorems: referential consistency of the model -/

/-- C1a: referential consistency is preserved by box creation, by box
deletion (which cascades, so afterwards no connection references the
deleted id), by a connection commit whose drag source and hovered handle
reference existing boxes, and by connection deletion.  (Import is handled
separately: it installs connections without any referential check.) -/
theorem connConsistent_preserved_by_model_ops
    (boxes : List ManualAgentBox) (conns : List ManualAgentConnection)
    (newId delId cid : String) (cd : ConnectDrag) (hnd : DragOverHandle)
    (hc : ConnConsistent boxes conns) :
    ConnConsistent (handleCreateBox boxes newId) conns ∧
    (ConnConsistent (deleteBoxOp boxes conns delId).1
        (deleteBoxOp boxes conns delId).2 ∧
      ∀ c ∈ (deleteBoxOp boxes conns delId).2,
        c.fromId ≠ delId ∧ c.toId ≠ delId) ∧
    ConnConsistent boxes (commitConnection cd none conns) ∧
    ((∃ b ∈ boxes, b.id = cd.fromId) → (∃ b ∈ boxes, b.id = hnd.boxId) →
      ConnConsistent boxes (commitConnection cd (some hnd) conns)) ∧
    ConnConsistent boxes (deleteConnectionById cid conns) := by
  refine ⟨?_, ⟨?_, ?_⟩, ?_, ?_, ?_⟩
  · intro c hcm
    obtain ⟨⟨b1, hb1, he1⟩, ⟨b2, hb2, he2⟩⟩ := hc c hcm
    exact ⟨⟨b1, List.mem_append_left _ hb1, he1⟩,
      ⟨b2, List.mem_append_left _ hb2, he2⟩⟩
  · intro c hcm
    simp only [deleteBoxOp, List.mem_filter, decide_eq_true_eq] at hcm
    obtain ⟨hcm, hfrom, hto⟩ := hcm
    obtain ⟨⟨b1, hb1, he1⟩, ⟨b2, hb2, he2⟩⟩ := hc c hcm
    refine ⟨⟨b1, ?_, he1⟩, ⟨b2, ?_, he2⟩⟩ <;>
      simp only [deleteBoxOp, List.mem_filter, decide_eq_true_eq]
    · exact ⟨hb1, by rw [he1]; exact hfrom⟩
    · exact ⟨hb2, by rw [he2]; exact hto⟩
  · intro c hcm
    simp only [deleteBoxOp, List.mem_filter, decide_eq_true_eq] at hcm
    exact hcm.2
  · exact hc
  · intro hfrom hto c hcm
    by_cases hb : hnd.boxId ≠ cd.fromId
    · rw [commitConnection, if_pos hb] at hcm
      rcases List.mem_append.mp hcm with hold | hnew
      · exact hc c hold
      · simp only [List.mem_singleton] at hnew
        subst hnew
        exact ⟨hfrom, hto⟩
    · rw [commitConnection, if_neg hb] at hcm
      exact hc c hcm
  · intro c hcm
    simp only [deleteConnectionById, List.mem_filter, decide_eq_true_eq] at hcm
    exact hc c hcm.1

/-- Witness instantiating `connConsistent_preserved_by_model_ops` on a
concrete consistent state: one box `"b1"` and no connections. -/
theorem connConsistent_preserved_by_model_ops_witness :
    ConnConsistent (handleCreateBox [sampleBox] "b2") [] ∧
    ConnConsistent (deleteBoxOp [sampleBox] [] "b1").1
      (deleteBoxOp [sampleBox] [] "b1").2 := by
  have h := connConsistent_preserved_by_model_ops [sampleBox] [] "b2" "b1"
    "c1" ⟨"b1", BoxSide.right, 0, 0⟩ ⟨"b1", BoxSide.left⟩
    (by intro c hcm; simp at hcm)
  exact ⟨h.1, h.2.1.1⟩

/-! ## Theorems: minimum box size -/

/-- C9a: the minimum-size property (width ≥ 120, height ≥ 60) holds for
every box created by `handleCreateBox` and is preserved by every resize
step (which floor-clamps to 120×60), by every drag step, and by box
deletion.  (Import is handled separately: it installs boxes without
clamping.) -/
theorem minSized_preserved_by_create_resize_drag_delete
    (boxes : List ManualAgentBox) (conns : List ManualAgentConnection)
    (newId rid did delId : String)
    (rsx rsy rbw rbh cx cy ox oy dcx dcy : ℚ)
    (hmin : ∀ b ∈ boxes, MinSized b) :
    (∀ b ∈ handleCreateBox boxes newId, MinSized b) ∧
    (∀ b ∈ resizeStep boxes rid rsx rsy rbw rbh cx cy, MinSized b) ∧
    (∀ b ∈ dragStep boxes did ox oy dcx dcy, MinSized b) ∧
    (∀ b ∈ (deleteBoxOp boxes conns delId).1, MinSized b) := by
  refine ⟨?_, ?_, ?_, ?_⟩
  · intro b hb
    rcases List.mem_append.mp hb with hb | hb
    · exact hmin b hb
    · simp only [List.mem_singleton] at hb
      subst hb
      exact ⟨by norm_num [defaultNewBox], by norm_num [defaultNewBox]⟩
  · intro b hb
    simp only [resizeStep, List.mem_map] at hb
    obtain ⟨a, ha, hab⟩ := hb
    by_cases hid : a.id = rid
    · rw [if_pos hid] at hab
      subst hab
      exact ⟨le_max_left _ _, le_max_left _ _⟩
    · rw [if_neg hid] at hab
      subst hab
      exact hmin a ha
  · intro b hb
    simp only [dragStep, List.mem_map] at hb
    obtain ⟨a, ha, hab⟩ := hb
    by_cases hid : a.id = did
    · rw [if_pos hid] at hab
      subst hab
      exact hmin a ha
    · rw [if_neg hid] at hab
      subst hab
      exact hmin a ha
  · intro b hb
    simp only [deleteBoxOp, List.mem_filter, decide_eq_true_eq] at hb
    exact hmin b hb.1

/-- Witness instantiating `minSized_preserved_by_create_resize_drag_delete`
on a concrete state, including a resize step that attempts to shrink the
box to 10×10 and is clamped to 120×60. -/
theorem minSized_preserved_by_create_resize_drag_delete_witness :
    (∀ b ∈ handleCreateBox [sampleBox] "b2", MinSized b) ∧
    (∀ b ∈ resizeStep [sampleBox] "b1" 0 0 300 100 (-290) (-90), MinSized b) := by
  have h := minSized_preserved_by_create_resize_drag_delete [sampleBox] []
    "b2" "b1" "b1" "b1" 0 0 300 100 (-290) (-90) 0 0 0 0
    (by intro b hb; simp only [List.mem_singleton] at hb; subst hb; decide)
  exact ⟨h.1, h.2.1⟩

/-! ## Theorems: message grouping -/

theorem groupGo_join (rest : List AIBlock) :
    ∀ (prev a : AIBlock) (as : List AIBlock) (groups : List (List AIBlock)),
      (groupGo prev rest (a :: as) groups).flatten
        = groups.flatten ++ (a :: as) ++ rest := by
  induction rest with
  | nil =>
    intro prev a as groups
    simp [groupGo]
  | cons c rest ih =>
    intro prev a as groups
    by_cases hle : c.timestamp - prev.timestamp ≤ 5000
    · simp only [groupGo, if_pos hle, List.cons_append c rest]
      rw [show (a :: as) ++ [c] = a :: (as ++ [c]) from List.cons_append a as [c]]
      rw [ih c a (as ++ [c]) groups]
      simp
    · simp only [groupGo, if_neg hle]
      rw [ih c c [] (groups ++ [a :: as])]
      simp

theorem groupGo_ne_nil (rest : List AIBlock) :
    ∀ (prev a : AIBlock) (as : List AIBlock) (groups : List (List AIBlock)),
      (∀ g ∈ groups, g ≠ []) →
      ∀ g ∈ groupGo prev rest (a :: as) groups, g ≠ [] := by
  induction rest with
  | nil =>
    intro prev a as groups hg g hmem
    simp only [groupGo, List.isEmpty_cons, Bool.false_eq_true, if_false] at hmem
    rcases List.mem_append.mp hmem with h | h
    · exact hg g h
    · simp only [List.mem_singleton] at h
      subst h
      exact List.cons_ne_nil a as
  | cons c rest ih =>
    intro prev a as groups hg g hmem
    by_cases hle : c.timestamp - prev.timestamp ≤ 5000
    · rw [groupGo, if_pos hle] at hmem
      rw [show (a :: as) ++ [c] = a :: (as ++ [c]) from List.cons_append a as [c]]
        at hmem
      exact ih c a (as ++ [c]) groups hg g hmem
    · rw [groupGo, if_neg hle] at hmem
      refine ih c c [] (groups ++ [a :: as]) ?_ g hmem
      intro g' hg'
      rcases List.mem_append.mp hg' with h | h
      · exact hg g' h
      · simp only [List.mem_singleton] at h
        subst h
        exact List.cons_ne_nil a as

theorem groupGo_chain_gapLE (rest : List AIBlock) :
    ∀ (prev a : AIBlock) (as : List AIBlock) (groups : List (List AIBlock)),
      (a :: as).getLast? = some prev →
      (a :: as).Chain' GapLE →
      (∀ g ∈ groups, g.Chain' GapLE) →
      ∀ g ∈ groupGo prev rest (a :: as) groups, g.Chain' GapLE := by
  induction rest with
  | nil =>
    intro prev a as groups _ hcur hg g hmem
    simp only [groupGo, List.isEmpty_cons, Bool.false_eq_true, if_false] at hmem
    rcases List.mem_append.mp hmem with h | h
    · exact hg g h
    · simp only [List.mem_singleton] at h
      subst h
      exact hcur
  | cons c rest ih =>
    intro prev a as groups hlast hcur hg g hmem
    by_cases hle : c.timestamp - prev.timestamp ≤ 5000
    · rw [groupGo, if_pos hle] at hmem
      rw [show (a :: as) ++ [c] = a :: (as ++ [c]) from List.cons_append a as [c]]
        at hmem
      refine ih c a (as ++ [c]) groups ?_ ?_ hg g hmem
      · rw [show a :: (as ++ [c]) = (a :: as) ++ [c] from
          (List.cons_append a as [c]).symm]
        exact List.getLast?_concat _
      · rw [show a :: (as ++ [c]) = (a :: as) ++ [c] from
          (List.cons_append a as [c]).symm]
        rw [List.chain'_append]
        refine ⟨hcur, List.chain'_singleton c, ?_⟩
        intro x hx y hy
        rw [hlast] at hx
        simp only [List.head?_cons, Option.mem_def, Option.some.injEq] at hx hy
        subst hx
        subst hy
        exact hle
    · rw [groupGo, if_neg hle] at hmem
      refine ih c c [] (groups ++ [a :: as]) rfl (List.chain'_singleton c)
        ?_ g hmem
      intro g' hg'
      rcases List.mem_append.mp hg' with h | h
      · exact hg g' h
      · simp only [List.mem_singleton] at h
        subst h
        exact hcur

theorem groupGo_chain_any (R : AIBlock → AIBlock → Prop)
    (rest : List AIBlock) :
    ∀ (prev a : AIBlock) (as : List AIBlock) (groups : List (List AIBlock)),
      (a :: as).getLast? = some prev →
      List.Chain' R (prev :: rest) →
      (a :: as).Chain' R →
      (∀ g ∈ groups, g.Chain' R) →
      ∀ g ∈ groupGo prev rest (a :: as) groups, g.Chain' R := by
  induction rest with
  | nil =>
    intro prev a as groups _ _ hcur hg g hmem
    simp only [groupGo, List.isEmpty_cons, Bool.false_eq_true, if_false] at hmem
    rcases List.mem_append.mp hmem with h | h
    · exact hg g h
    · simp only [List.mem_singleton] at h
      subst h
      exact hcur
  | cons c rest ih =>
    intro prev a as groups hlast hchain hcur hg g hmem
    have hRprevc : R prev c := (List.chain'_cons.mp hchain).1
    have hchainrest : List.Chain' R (c :: rest) := (List.chain'_cons.mp hchain).2
    by_cases hle : c.timestamp - prev.timestamp ≤ 5000
    · rw [groupGo, if_pos hle] at hmem
      rw [show (a :: as) ++ [c] = a :: (as ++ [c]) from List.cons_append a as [c]]
        at hmem
      refine ih c a (as ++ [c]) groups ?_ hchainrest ?_ hg g hmem
      · rw [show a :: (as ++ [c]) = (a :: as) ++ [c] from
          (List.cons_append a as [c]).symm]
        exact List.getLast?_concat _
      · rw [show a :: (as ++ [c]) = (a :: as) ++ [c] from
          (List.cons_append a as [c]).symm]
        rw [List.chain'_append]
        refine ⟨hcur, List.chain'_singleton c, ?_⟩
        intro x hx y hy
        rw [hlast] at hx
        simp only [List.head?_cons, Option.mem_def, Option.some.injEq] at hx hy
        subst hx
        subst hy
        exact hRprevc
    · rw [groupGo, if_neg hle] at hmem
      refine ih c c [] (groups ++ [a :: as]) rfl hchainrest
        (List.chain'_singleton c) ?_ g hmem
      intro g' hg'
      rcases List.mem_append.mp hg' with h | h
      · exact hg g' h
      · simp only [List.mem_singleton] at h
        subst h
        exact hcur

theorem groupGo_chain_boundary (rest : List AIBlock) :
    ∀ (prev a : AIBlock) (as : List AIBlock) (groups : List (List AIBlock)),
      (a :: as).getLast? = some prev →
      List.Chain' BoundaryGT (groups ++ [a :: as]) →
      List.Chain' BoundaryGT (groupGo prev rest (a :: as) groups) := by
  induction rest with
  | nil =>
    intro prev a as groups _ hinv
    simp only [groupGo, List.isEmpty_cons, Bool.false_eq_true, if_false]
    exact hinv
  | cons c rest ih =>
    intro prev a as groups hlast hinv
    by_cases hle : c.timestamp - prev.timestamp ≤ 5000
    · rw [groupGo, if_pos hle]
      rw [show (a :: as) ++ [c] = a :: (as ++ [c]) from List.cons_append a as [c]]
      refine ih c a (as ++ [c]) groups ?_ ?_
      · rw [show a :: (as ++ [c]) = (a :: as) ++ [c] from
          (List.cons_append a as [c]).symm]
        exact List.getLast?_concat _
      · rw [List.chain'_append] at hinv ⊢
        refine ⟨hinv.1, List.chain'_singleton _, ?_⟩
        intro x hx y hy
        simp only [List.head?_cons, Option.mem_def, Option.some.injEq] at hy
        subst hy
        intro p q hp hq
        simp only [List.head?_cons, Option.some.injEq] at hq
        subst hq
        exact hinv.2.2 x hx (a :: as) rfl p a hp rfl
    · rw [groupGo, if_neg hle]
      refine ih c c [] (groups ++ [a :: as]) rfl ?_
      rw [List.chain'_append]
      refine ⟨hinv, List.chain'_singleton _, ?_⟩
      intro x hx y hy
      rw [List.getLast?_concat] at hx
      simp only [List.head?_cons, Option.mem_def, Option.some.injEq] at hx hy
      subst hx
      subst hy
      intro p q hp hq
      rw [hlast] at hp
      simp only [List.head?_cons, Option.some.injEq] at hp hq
      subst hp
      subst hq
      omega

/-- C3p: on a timestamp-sorted message list, the grouping function
partitions the input into non-empty runs (their concatenation is the
input), inside each run consecutive messages are at most 5000 ms apart
(and still sorted), and a new run starts exactly where the gap exceeds
5000 ms; on timestamps [0, 1000, 7000, 7500] it yields exactly the groups
[0, 1000] and [7000, 7500]. -/
theorem groupMessages_maximal_runs (msgs : List AIBlock)
    (hsorted : msgs.Chain' (fun x y => x.timestamp ≤ y.timestamp)) :
    (groupMessagesByConversation msgs).flatten = msgs ∧
    (∀ g ∈ groupMessagesByConversation msgs, g ≠ []) ∧
    (∀ g ∈ groupMessagesByConversation msgs, g.Chain' GapLE) ∧
    (∀ g ∈ groupMessagesByConversation msgs,
      g.Chain' (fun x y => x.timestamp ≤ y.timestamp)) ∧
    List.Chain' BoundaryGT (groupMessagesByConversation msgs) ∧
    groupMessagesByConversation [msgAt 0, msgAt 1000, msgAt 7000, msgAt 7500]
      = [[msgAt 0, msgAt 1000], [msgAt 7000, msgAt 7500]] := by
  refine ⟨?_, ?_, ?_, ?_, ?_, by decide⟩
  · cases msgs with
    | nil => rfl
    | cons m ms =>
      rw [groupMessagesByConversation]
      rw [groupGo_join ms m m [] []]
      rfl
  · cases msgs with
    | nil => intro g hg; simp [groupMessagesByConversation] at hg
    | cons m ms =>
      rw [groupMessagesByConversation]
      exact groupGo_ne_nil ms m m [] [] (by intro g hg; simp at hg)
  · cases msgs with
    | nil => intro g hg; simp [groupMessagesByConversation] at hg
    | cons m ms =>
      rw [groupMessagesByConversation]
      exact groupGo_chain_gapLE ms m m [] [] rfl (List.chain'_singleton m)
        (by intro g hg; simp at hg)
  · cases msgs with
    | nil => intro g hg; simp [groupMessagesByConversation] at hg
    | cons m ms =>
      rw [groupMessagesByConversation]
      exact groupGo_chain_any _ ms m m [] [] rfl hsorted
        (List.chain'_singleton m) (by intro g hg; simp at hg)
  · cases msgs with
    | nil => simp [groupMessagesByConversation]
    | cons m ms =>
      rw [groupMessagesByConversation]
      exact groupGo_chain_boundary ms m m [] [] rfl (by simp)

/-- Witness instantiating `groupMessages_maximal_runs` on the concrete
sorted list with timestamps [0, 1000, 7000, 7500]. -/
theorem groupMessages_maximal_runs_witness :
    (groupMessagesByConversation
        [msgAt 0, msgAt 1000, msgAt 7000, msgAt 7500]).flatten
      = [msgAt 0, msgAt 1000, msgAt 7000, msgAt 7500] ∧
    groupMessagesByConversation [msgAt 0, msgAt 1000, msgAt 7000, msgAt 7500]
      = [[msgAt 0, msgAt 1000], [msgAt 7000, msgAt 7500]] := by
  have h := groupMessages_maximal_runs
    [msgAt 0, msgAt 1000, msgAt 7000, msgAt 7500]
    (by norm_num [List.chain'_cons, List.chain'_singleton, msgAt])
  exact ⟨h.1, h.2.2.2.2.2⟩

/-! ## Theorems: export/import -/

theorem decodeBox_encodeBox (b : ManualAgentBox) :
    decodeBox (encodeBox b) = some b := by
  obtain ⟨id, x, y, w, h, t, r, rd, model⟩ := b
  cases model <;> rfl

theorem decodeConn_encodeConn (c : ManualAgentConnection) :
    decodeConn (encodeConn c) = some c := by
  obtain ⟨id, fid, fs, tid, tsd⟩ := c
  cases fs <;> cases tsd <;> rfl

theorem optionMapList_roundtrip {α β : Type} (f : α → β) (g : β → Option α)
    (h : ∀ a, g (f a) = some a) :
    ∀ l : List α, optionMapList g (l.map f) = some l := by
  intro l
  induction l with
  | nil => rfl
  | cons x xs ih => simp [optionMapList, h, ih]

/-- C7p: exporting, clearing the canvas, then importing the exported
document restores the box and connection lists exactly, and the import
succeeds. -/
theorem export_clear_import_roundtrip (s : CanvasState) (ts : String) :
    (handleImportChange (some (handleExport s ts))
        (handleClearCanvas s)).1.boxes = s.boxes ∧
    (handleImportChange (some (handleExport s ts))
        (handleClearCanvas s)).1.connections = s.connections ∧
    (handleImportChange (some (handleExport s ts))
        (handleClearCanvas s)).2 = true := by
  have hfalsy : (handleExport s ts).falsy = false := rfl
  have hgb : (Json.getField (handleExport s ts) "boxes").bind Json.asArr
      = some (s.boxes.map encodeBox) := rfl
  have hgc : (Json.getField (handleExport s ts) "connections").bind Json.asArr
      = some (s.connections.map encodeConn) := rfl
  have hb : optionMapList decodeBox (s.boxes.map encodeBox) = some s.boxes :=
    optionMapList_roundtrip encodeBox decodeBox decodeBox_encodeBox s.boxes
  have hc : optionMapList decodeConn (s.connections.map encodeConn)
      = some s.connections :=
    optionMapList_roundtrip encodeConn decodeConn decodeConn_encodeConn
      s.connections
  simp [handleImportChange, hfalsy, hgb, hgc, hb, hc]

/-- C8p: a malformed import input — text `JSON.parse` rejects, or a parsed
value that is falsy or lacks a `boxes` array or a `connections` array —
leaves the entire previous canvas state exactly as it was (no field is
applied) and surfaces the failure alert (flag `false`). -/
theorem import_malformed_leaves_state_untouched (input : Option Json)
    (s : CanvasState)
    (hmal : input = none ∨ ∃ d, input = some d ∧ importValid d = false) :
    handleImportChange input s = (s, false) := by
  rcases hmal with h | ⟨d, hin, hv⟩
  · subst h; rfl
  · subst hin
    by_cases hf : d.falsy
    · simp [handleImportChange, hf]
    · cases hbx : (d.getField "boxes").bind Json.asArr with
      | none => simp [handleImportChange, hf, hbx]
      | some bl =>
        cases hcn : (d.getField "connections").bind Json.asArr with
        | none => simp [handleImportChange, hf, hbx, hcn]
        | some cl =>
          exfalso
          have hvalid : importValid d = true := by
            simp [importValid, hf, hbx, hcn]
          rw [hv] at hvalid
          exact Bool.false_ne_true hvalid

/-- Witness instantiating `import_malformed_leaves_state_untouched` on the
parse of the valid JSON text `"hello"` (a string, so it has no `boxes`
array) against a non-trivial state. -/
theorem import_malformed_leaves_state_untouched_witness :
    handleImportChange (some (Json.str "hello"))
        { initialState with boxes := [sampleBox], prompt := "p" }
      = ({ initialState with boxes := [sampleBox], prompt := "p" }, false) :=
  import_malformed_leaves_state_untouched (some (Json.str "hello"))
    { initialState with boxes := [sampleBox], prompt := "p" }
    (Or.inr ⟨Json.str "hello", rfl, rfl⟩)

/-- C1c: counterexample to the claim that every model operation, import
included, preserves referential consistency.  Importing `danglingDoc`
(well-formed: `boxes` and `connections` are arrays) succeeds and installs
a connection between two box ids that exist nowhere in the (empty) box
list. -/
theorem import_installs_dangling_connection :
    (handleImportChange (some danglingDoc) initialState).2 = true ∧
    (handleImportChange (some danglingDoc) initialState).1.boxes = [] ∧
    (handleImportChange (some danglingDoc) initialState).1.connections
      = [mkCommittedConn "ghostA" BoxSide.right "ghostB" BoxSide.left] ∧
    ¬ ConnConsistent
        (handleImportChange (some danglingDoc) initialState).1.boxes
        (handleImportChange (some danglingDoc) initialState).1.connections := by
  refine ⟨rfl, rfl, rfl, ?_⟩
  intro h
  obtain ⟨⟨b, hb, _⟩, _⟩ := h
    (mkCommittedConn "ghostA" BoxSide.right "ghostB" BoxSide.left)
    (show _ ∈ [mkCommittedConn "ghostA" BoxSide.right "ghostB" BoxSide.left]
      from List.mem_singleton.mpr rfl)
  exact absurd hb (List.not_mem_nil b)

/-- C9c: counterexample to the claim that no operation produces a box
below the 120×60 minimum.  Importing `tinyBoxDoc` succeeds and installs a
10×10 box verbatim: the import path performs no clamping. -/
theorem import_installs_undersized_box :
    (handleImportChange (some tinyBoxDoc) initialState).2 = true ∧
    (handleImportChange (some tinyBoxDoc) initialState).1.boxes
      = [tinyBox] ∧
    ¬ MinSized tinyBox := by
  refine ⟨rfl, rfl, ?_⟩
  intro h
  exact absurd h.1 (by norm_num [tinyBox])

/-! ## Theorems: connection message overlay -/

/-- C4a: `getConnectionMessages` returns exactly (a permutation of) the
log entries whose `agentId` — the sender identifier — equals either
endpoint box's id, sorted ascending by timestamp; the recipient identifier
is not consulted. -/
theorem getConnectionMessages_sender_filter_sorted
    (agentMessages : List AgentMessage) (conn : ManualAgentConnection)
    (fromBox toBox : ManualAgentBox) :
    (getConnectionMessages agentMessages conn fromBox toBox).Perm
      (agentMessages.filter
        (fun m => decide (m.agentId = fromBox.id ∨ m.agentId = toBox.id))) ∧
    List.Sorted tsLE (getConnectionMessages agentMessages conn fromBox toBox) :=
  ⟨List.perm_insertionSort tsLE _, List.sorted_insertionSort tsLE _⟩

/-- C4c: counterexample to the claim that entries whose recipient
identifier matches an endpoint are returned.  `msgRecipientOnly` is
addressed to endpoint `A` (`toAgent = "A"`), yet the function returns the
empty list, because the filter only inspects `agentId`. -/
theorem getConnectionMessages_ignores_recipient :
    msgRecipientOnly.toAgent = boxA.id ∧
    getConnectionMessages [msgRecipientOnly]
      (mkCommittedConn "A" BoxSide.right "B" BoxSide.left) boxA boxB = [] :=
  ⟨rfl, rfl⟩

end Cube
